import Mathlib

/-!
Verification development for the Pace Comparison Engine of
`generate_stats_page.py` (oofs_s3_data_analytics).

Embedding conventions:
* Python/pandas float cells are modelled by `PyF`: a finite rational,
  positive or negative infinity, or the missing marker NaN.  IEEE binary
  rounding is not modelled: float arithmetic is exact rational arithmetic,
  and Python's `round(x, 2)` (half-to-even on binary floats) is modelled by
  rational rounding to the nearest hundredth (`round2q`); the two agree
  except at half-ulp boundary values, which do not arise in the claims.
* Python strings are modelled by Lean `String`; laptime parsing and name
  splitting are implemented on the underlying character lists so that all
  recursion is structural.  `pyFloatChars` models Python's `float()` on
  finite decimal literals (optional sign, digits, fraction, exponent,
  surrounding whitespace); the exotic inputs `inf`/`nan` and underscore
  digit separators accepted by `float()` are not modelled, since a lap-time
  cell never contains them.
* pandas `merge(..., how='outer')` is modelled with left rows first (each
  matched against every right row with the same key), followed by the
  unmatched right rows; `sort_values` is modelled by a stable insertion
  sort.  The claims under study do not depend on tie order.
-/

attribute [local semireducible] Rat.add Rat.mul Rat.inv Rat.sub Rat.ofScientific

/-- Model of a pandas/NumPy float cell: a finite rational, `+inf`, `-inf`,
or the missing marker NaN. -/
inductive PyF where
  | fin (q : ℚ)
  | pinf
  | ninf
  | nan
deriving DecidableEq

/-- Model of `pd.isna` on a float cell. -/
def PyF.isna : PyF → Bool
  | .nan => true
  | _ => false

/-- True exactly when the cell holds a value strictly greater than 107
(the outlier ceiling); NaN and `-inf` are not greater than 107. -/
def PyF.gt107 : PyF → Bool
  | .fin q => decide (107 < q)
  | .pinf => true
  | _ => false

/-- Binary minimum that skips NaN, as pandas `min(axis=1)` (skipna) does:
NaN acts as the identity, and on non-NaN values it is the numeric minimum
with `-inf < finite < +inf`. -/
def pyMinSkip : PyF → PyF → PyF
  | .nan, y => y
  | x, .nan => x
  | .ninf, _ => .ninf
  | _, .ninf => .ninf
  | .fin p, .fin q => .fin (min p q)
  | .fin p, .pinf => .fin p
  | .pinf, .fin q => .fin q
  | .pinf, .pinf => .pinf

/-- Row-wise minimum of a list of cells with NaN skipped; the minimum of an
all-NaN (or empty) list is NaN, exactly as pandas `min(axis=1)`. -/
def pyRowMin (xs : List PyF) : PyF := xs.foldl pyMinSkip .nan

/-- IEEE-style subtraction on cells: NaN propagates, `inf - inf` is NaN. -/
def PyF.sub : PyF → PyF → PyF
  | .nan, _ => .nan
  | _, .nan => .nan
  | .fin a, .fin b => .fin (a - b)
  | .pinf, .pinf => .nan
  | .pinf, _ => .pinf
  | .ninf, .ninf => .nan
  | .ninf, _ => .ninf
  | .fin _, .pinf => .ninf
  | .fin _, .ninf => .pinf

/-- Multiplication of a cell by the positive constant 100, as in
`min_laptime / laptime_sec * 100`. -/
def PyF.mul100 : PyF → PyF
  | .fin q => .fin (q * 100)
  | x => x

/-- NumPy division of two finite floats: a nonzero denominator gives the
exact quotient, division of a positive (negative) value by zero gives
`+inf` (`-inf`), and `0/0` gives NaN. -/
def pyDiv (a b : ℚ) : PyF :=
  if b ≠ 0 then .fin (a / b)
  else if 0 < a then .pinf
  else if a < 0 then .ninf
  else .nan

/-- Rounding of a rational to two decimal places, modelling `round(x, 2)`. -/
def round2q (q : ℚ) : ℚ := ((round (q * 100) : ℤ) : ℚ) / 100

/-- Rounding of a cell to two decimal places; infinities and NaN are fixed
points of `round`, as in Python. -/
def PyF.round2 : PyF → PyF
  | .fin q => .fin (round2q q)
  | x => x

/-- Model of `.replace(0.00, np.nan)` on one cell. -/
def repl0 (x : PyF) : PyF := if x = .fin 0 then .nan else x

/-- Model of the outlier rule
`x if pd.isna(x) or x <= 107.0 else np.nan` applied to one cell:
any value strictly greater than 107 becomes NaN. -/
def outlier107 : PyF → PyF
  | .fin q => if q ≤ 107 then .fin q else .nan
  | .pinf => .nan
  | .ninf => .ninf
  | .nan => .nan

/-- Whitespace stripping from both ends of a character list, modelling
Python's `str.strip()`. -/
def trimChars (cs : List Char) : List Char :=
  ((cs.dropWhile Char.isWhitespace).reverse.dropWhile Char.isWhitespace).reverse

/-- Splitting of a character list at every occurrence of a separator
character, modelling Python's `str.split(sep)`: the result always has one
more piece than there are separators, and pieces may be empty. -/
def splitOnChar (sep : Char) : List Char → List (List Char)
  | [] => [[]]
  | c :: t =>
    if c = sep then [] :: splitOnChar sep t
    else
      match splitOnChar sep t with
      | [] => [[c]]
      | h :: r => (c :: h) :: r

/-- Numeric value of a list of decimal digit characters, most significant
first. -/
def natDigits (cs : List Char) : ℕ := cs.foldl (fun a c => a * 10 + (c.toNat - 48)) 0

/-- Optional leading sign of a numeric literal: returns the sign as a
rational factor together with the remaining characters. -/
def parseSign : List Char → ℚ × List Char
  | '+' :: t => (1, t)
  | '-' :: t => (-1, t)
  | t => (1, t)

/-- Optional leading sign of an exponent: `true` means negative. -/
def parseExpSign : List Char → Bool × List Char
  | '+' :: t => (false, t)
  | '-' :: t => (true, t)
  | t => (false, t)

/-- Parser for the body of a finite decimal literal as accepted by Python's
`float()`: optional sign, then digits with an optional fractional part (at
least one digit in total), then an optional exponent part. Returns `none`
exactly where `float()` raises `ValueError`. -/
def pyFloatCore (cs0 : List Char) : Option ℚ :=
  let sp := parseSign cs0
  let ip := sp.2.takeWhile Char.isDigit
  let r1 := sp.2.dropWhile Char.isDigit
  let fp := match r1 with | '.' :: t => t.takeWhile Char.isDigit | _ => []
  let r2 := match r1 with | '.' :: t => t.dropWhile Char.isDigit | _ => r1
  if ip.isEmpty && fp.isEmpty then none
  else
    let mant : ℚ := (natDigits ip : ℚ) + (natDigits fp : ℚ) / (10 : ℚ) ^ fp.length
    match r2 with
    | [] => some (sp.1 * mant)
    | c :: t =>
      if c = 'e' ∨ c = 'E' then
        let es := parseExpSign t
        let ed := es.2.takeWhile Char.isDigit
        let r3 := es.2.dropWhile Char.isDigit
        if ed.isEmpty ∨ ¬ r3.isEmpty then none
        else some (sp.1 * mant * (10 : ℚ) ^ (if es.1 then -(natDigits ed : ℤ) else (natDigits ed : ℤ)))
      else none

/-- Model of Python's `float()` on a character list: surrounding whitespace
is ignored, then a finite decimal literal is parsed. -/
def pyFloatChars (cs : List Char) : Option ℚ := pyFloatCore (trimChars cs)

/-- A best-lap representation handed to `convert_laptime_to_seconds`:
either a missing value (`pd.isna`) or a string. -/
inductive LapRep where
  | na
  | str (s : String)
deriving DecidableEq

/-- Model of `convert_laptime_to_seconds`: a missing value, the empty
string or the marker `DNF` give 0; a stripped string containing `:` is
split and interpreted as minutes and seconds when both of the first two
pieces parse as floats (otherwise 0); any other string is interpreted as a
bare float value (0 when the parse fails).  The function is total: no
exception escapes. -/
def convert_laptime_to_seconds : LapRep → ℚ
  | .na => 0
  | .str s =>
    if s = "" ∨ s = "DNF" then 0
    else
      let t := trimChars s.data
      if t.contains ':' then
        match splitOnChar ':' t with
        | p0 :: p1 :: _ =>
          match pyFloatChars p0, pyFloatChars p1 with
          | some m, some sec => m * 60 + sec
          | _, _ => 0
        | _ => 0
      else
        match pyFloatChars t with
        | some q => q
        | none => 0

/-- One raw driver record as produced by `extract_xml_drivers` for one
event; only the fields consumed by the engine (`Driver`, `CarClass`,
`Best Lap  Laps`) are modelled — the remaining fields (`Car`, `CarNumber`,
`Position`, `Laps`, `FinishStatus`) are display-only and never read by the
pace pipeline. -/
structure RawDriver where
  name : String
  carClass : String
  bestLap : LapRep
deriving DecidableEq

/-- True when `sep` occurs as a contiguous substring, modelling Python's
`in` on strings for a fixed nonempty `sep`. -/
def hasSubstr (sep : List Char) : List Char → Bool
  | [] => sep.isEmpty
  | c :: t => sep.isPrefixOf (c :: t) || hasSubstr sep t

/-- Everything strictly before the first occurrence of the substring
`sep`, modelling `str.split(sep)[0]` when `sep` occurs. -/
def beforeSubstr (sep : List Char) : List Char → List Char
  | [] => []
  | c :: t => if sep.isPrefixOf (c :: t) then [] else c :: beforeSubstr sep t

/-- Model of the per-row name normalisation
`str(x).split('LMGT3')[0].strip() if 'LMGT3' in str(x) else str(x).strip()`. -/
def normalize_driver_name (x : String) : String :=
  if hasSubstr "LMGT3".data x.data then ⟨trimChars (beforeSubstr "LMGT3".data x.data)⟩
  else ⟨trimChars x.data⟩

/-- The fixed alias table `DRIVER_REPLACEMENTS`, in source (insertion)
order. -/
def DRIVER_REPLACEMENTS : List (String × String) :=
  [("Greg Kach", "Greg Kachadurian"),
   ("R McLean", "Ross McLean"),
   ("Ricky Swaby", "Ricardo Swaby"),
   ("p thomas", "Parker Thomas"),
   ("David Carter", "Dave Carter"),
   ("David Carter#5529", "Dave Carter"),
   ("John P", "John Pflibsen"),
   ("Ayrton Senna", "Ayrton Torres"),
   ("Avi Ganti", "Avinash Ganti")]

/-- Sequential application of the alias table, modelling the loop of
`df['Driver_name'].replace(old, new)` calls (exact-value replacement,
one table entry after the other in insertion order). -/
def apply_replacements (n : String) : String :=
  DRIVER_REPLACEMENTS.foldl (fun m p => if m = p.1 then p.2 else m) n

/-- One processed row of a per-event dataframe: canonical driver name,
lap time in seconds, pace versus the field and pace versus the reference
("alien") lap. -/
structure Row where
  driver : String
  laptime_sec : ℚ
  laptime_pct : PyF
  laptime_pct_alien : PyF
deriving DecidableEq

/-- Minimum of the strictly positive entries of a list, modelling
`df[df['laptime_sec'] > 0]['laptime_sec'].min()`: `none` when no entry is
positive (pandas NaN, for which `min_laptime > 0` is false). -/
def minPos (laps : List ℚ) : Option ℚ :=
  (laps.filter (fun q => decide (0 < q))).foldl
    (fun acc q => match acc with | none => some q | some m => some (min m q)) none

/-- Shared per-driver row computation of `process_race_data` (and of the
tail of `process_multiclass_race_data`): given the field minimum of the
valid laps and the reference lap, produce one processed row. -/
def mkRow (m : Option ℚ) (ref : ℚ) (d : RawDriver) : Row :=
  let lap := convert_laptime_to_seconds d.bestLap
  { driver := apply_replacements (normalize_driver_name d.name)
    laptime_sec := lap
    laptime_pct :=
      match m with
      | some mv => PyF.round2 (PyF.mul100 (pyDiv mv lap))
      | none => PyF.fin 100
    laptime_pct_alien :=
      if 0 < ref then PyF.fin (round2q (lap / ref * 100)) else PyF.fin 100 }

/-- Model of `process_race_data` on the extracted driver records of one
event: `none` when the extractor produced no records, otherwise the list of
processed rows.  `laptime_pct` is the field pace
`round(min_laptime / laptime_sec * 100, 2)` when a positive lap exists
(`+inf` for a sentinel 0 lap, exactly as the float division produces) and
the scalar 100 otherwise; `laptime_pct_alien` is
`round(laptime_sec / ref_laptime * 100, 2)` when `ref_laptime > 0` and the
scalar 100 otherwise.  The unused `race_name` argument of the source is
omitted. -/
def process_race_data (drivers : List RawDriver) (ref_laptime : ℚ) : Option (List Row) :=
  if drivers.isEmpty then none
  else
    let m := minPos (drivers.map (fun d => convert_laptime_to_seconds d.bestLap))
    some (drivers.map (mkRow m ref_laptime))

/-- Case-insensitive substring test, modelling
`Series.str.contains(pat, case=False)` for the literal patterns used in the
source (no regex metacharacters). -/
def containsCI (hay pat : String) : Bool :=
  hasSubstr (pat.data.map Char.toLower) (hay.data.map Char.toLower)

/-- Model of the class filter of `process_multiclass_race_data`: `P2UR`
keeps rows whose class contains `LMP2_ELMS`, `GT3` keeps rows whose class
contains `GT3` (case-insensitively); any other argument keeps every row. -/
def class_filter (car_class : String) (d : RawDriver) : Bool :=
  if car_class.data.map Char.toUpper = "P2UR".data then containsCI d.carClass "LMP2_ELMS"
  else if car_class.data.map Char.toUpper = "GT3".data then containsCI d.carClass "GT3"
  else true

/-- Model of `process_multiclass_race_data`: `none` when the extractor
produced no records or the class filter leaves no row, otherwise the same
per-row computation as `process_race_data` on the filtered field. -/
def process_multiclass_race_data (drivers : List RawDriver) (car_class : String)
    (ref_laptime : ℚ) : Option (List Row) :=
  if drivers.isEmpty then none
  else
    let fd := drivers.filter (class_filter car_class)
    if fd.isEmpty then none
    else
      let m := minPos (fd.map (fun d => convert_laptime_to_seconds d.bestLap))
      some (fd.map (mkRow m ref_laptime))

/-- The three numeric cells one event contributes to a comparison row:
`laptime_sec_<code>`, `laptime_pct_<code>`, `laptime_pct_alien_<code>`. -/
structure EventCells where
  sec : PyF
  pct : PyF
  alien : PyF
deriving DecidableEq

/-- One row of the comparison dataframe: a driver name and, per merged
event code in merge order, that event's three cells. -/
structure CRow where
  driver : String
  cells : List (String × EventCells)
deriving DecidableEq

/-- Cells produced from a present per-event row. -/
def rowCells (r : Row) : EventCells :=
  ⟨.fin r.laptime_sec, r.laptime_pct, r.laptime_pct_alien⟩

/-- Cells of an event a driver is missing from: all NaN, as an outer join
fills them. -/
def nanCells : EventCells := ⟨.nan, .nan, .nan⟩

/-- The `laptime_pct_alien_<code>` cell of a comparison row (NaN when the
row does not carry that code, which does not occur in rows built by the
engine). -/
def alienAt (L : CRow) (c : String) : PyF :=
  match L.cells.lookup c with
  | some e => e.alien
  | none => .nan

/-- Model of one step of the pandas full outer merge on `Driver_name`
(`sort=False`): every left row is matched against every right row with the
same driver (cross product on duplicate keys, right order preserved), a
left row without a match gets NaN cells for the new event, and right rows
matching no left row are appended with NaN cells for all previously merged
codes (`prior`). -/
def mergeOuter (prior : List String) (left : List CRow) (code : String)
    (right : List Row) : List CRow :=
  (left.map (fun L =>
    match right.filter (fun R => decide (R.driver = L.driver)) with
    | [] => [⟨L.driver, L.cells ++ [(code, nanCells)]⟩]
    | Rs => Rs.map (fun R => ⟨L.driver, L.cells ++ [(code, rowCells R)]⟩))).flatten
  ++ (right.filter (fun R => left.all (fun L => decide (¬ L.driver = R.driver)))).map
      (fun R => ⟨R.driver, prior.map (fun c => (c, nanCells)) ++ [(code, rowCells R)]⟩)

/-- Stable insertion of an element into a list sorted by `le`. -/
def insertSorted (le : α → α → Bool) (a : α) : List α → List α
  | [] => [a]
  | b :: t => if le a b then a :: b :: t else b :: insertSorted le a t

/-- Stable insertion sort, modelling pandas `sort_values` (the claims under
study do not depend on the order of tied keys). -/
def sortByKey (le : α → α → Bool) (l : List α) : List α :=
  l.foldr (insertSorted le) []

/-- Strict lexicographic order on character lists by code point, the order
Python uses to compare strings. -/
def ltChars : List Char → List Char → Bool
  | [], [] => false
  | [], _ :: _ => true
  | _ :: _, [] => false
  | a :: s, b :: t => if a = b then ltChars s t else decide (a < b)

/-- Comparison-row order of `sort_values('Driver_name')`: lexicographic,
case-sensitive string order. -/
def leDriver (a b : CRow) : Bool := ! ltChars b.driver.data a.driver.data

/-- Model of `.replace(0.00, np.nan)` on one event's three cells. -/
def cleanCell (e : EventCells) : EventCells := ⟨repl0 e.sec, repl0 e.pct, repl0 e.alien⟩

/-- Model of `.replace(0.00, np.nan)` on a whole comparison row (the
driver-name column is a string and is unaffected). -/
def cleanRow (L : CRow) : CRow := ⟨L.driver, L.cells.map (fun p => (p.1, cleanCell p.2))⟩

/-- Model of the outlier loop over the pace columns: only the
`laptime_pct_alien_<code>` cell of each event is rewritten. -/
def outCell (e : EventCells) : EventCells := ⟨e.sec, e.pct, outlier107 e.alien⟩

/-- Outlier replacement applied to a whole comparison row. -/
def outRow (L : CRow) : CRow := ⟨L.driver, L.cells.map (fun p => (p.1, outCell p.2))⟩

/-- Model of `dropna(subset=pace_cols, how='all')` for one row: keep the
row iff some pace cell is not missing. -/
def keepRow (codes : List String) (L : CRow) : Bool :=
  ¬ codes.all (fun c => (alienAt L c).isna)

/-- Model of `process_races_into_comparison_df`.  The input is the ordered
list of `(race code, track name)` pairs produced by
`load_races_dynamically` together with the `dfs_dict` lookup from track
name to loaded dataframe.  The first available event seeds the table, each
subsequent event with a loaded dataframe is outer-merged, then — in this
source order — `0.00` is replaced by NaN everywhere, rows whose pace cells
are all missing are dropped, pace values above 107 are replaced by NaN, and
the rows are sorted by driver name.  Returns the table (or `none`) and the
list of merged pace-column codes. -/
def process_races_into_comparison_df (races : List (String × String))
    (dfs : String → Option (List Row)) : Option (List CRow) × List String :=
  match races with
  | [] => (none, [])
  | (c0, t0) :: rest =>
    match dfs t0 with
    | none => (none, [])
    | some df0 =>
      let seed : List CRow := df0.map (fun r => ⟨r.driver, [(c0, rowCells r)]⟩)
      let ms := rest.foldl
        (fun st ct =>
          match dfs ct.2 with
          | none => st
          | some dfr => (mergeOuter st.2 st.1 ct.1 dfr, st.2 ++ [ct.1]))
        (seed, [c0])
      let dropped := (ms.1.map cleanRow).filter (keepRow ms.2)
      (some (sortByKey leDriver (dropped.map outRow)), ms.2)

/-- One row of the improvement dataframe when the improvement columns
exist: driver, the projected pace cells, and the three derived columns. -/
structure IRow where
  driver : String
  alien : List (String × PyF)
  best_first_two : PyF
  best_last_two : PyF
  improvement : PyF
deriving DecidableEq

/-- Result of `build_improvement_df`: with at least two pace columns the
rows carry `best_first_two`, `best_last_two` and `improvement`; with fewer
the returned dataframe has only the driver and pace columns (the improvement
columns are never created). -/
inductive ImprovementDF where
  | with_cols (rows : List IRow)
  | without (rows : List (String × List (String × PyF)))
deriving DecidableEq

/-- Order of `sort_values('improvement', ascending=False)`: larger
improvement first, NaN last. -/
def impBefore (a b : IRow) : Bool :=
  match a.improvement, b.improvement with
  | .nan, _ => false
  | _, .nan => true
  | .pinf, _ => true
  | _, .pinf => false
  | .ninf, .ninf => true
  | .ninf, .fin _ => false
  | .fin _, .ninf => true
  | .fin p, .fin q => decide (q ≤ p)

/-- The pace columns of one comparison row as projected by
`build_improvement_df`, with its `replace(0.00, np.nan)` applied. -/
def improvementBase (codes : List String) (L : CRow) : List (String × PyF) :=
  codes.map (fun c => (c, repl0 (alienAt L c)))

/-- The derived columns of one improvement row: `best_first_two` is the
NaN-skipping minimum over the first two pace columns (`pace_cols[:2]`),
`best_last_two` over the last two (`pace_cols[-2:]`), and `improvement` is
their difference. -/
def mkIRow (b : String × List (String × PyF)) : IRow :=
  let b1 := pyRowMin ((b.2.take 2).map Prod.snd)
  let b2 := pyRowMin ((b.2.drop (b.2.length - 2)).map Prod.snd)
  ⟨b.1, b.2, b1, b2, b1.sub b2⟩

/-- Model of `build_improvement_df`: project the driver and pace columns,
replace `0.00` by NaN, drop rows whose pace cells are all missing; when at
least two pace columns exist, add `best_first_two`, `best_last_two` and
`improvement`, and sort by improvement descending; with fewer than two pace
columns the derived columns are never created. -/
def build_improvement_df (comparison : List CRow) (codes : List String) : ImprovementDF :=
  let base := comparison.map (fun L => (L.driver, improvementBase codes L))
  let base2 := base.filter (fun r => ¬ r.2.all (fun p => p.2.isna))
  if 2 ≤ codes.length then .with_cols (sortByKey impBefore (base2.map mkIRow))
  else .without base2

/-- Python word-splitting `str.split()`: split on whitespace runs, dropping
empty pieces.  Implemented as a single left fold. -/
def wordsOf (cs : List Char) : List (List Char) :=
  let st := cs.foldl
    (fun (st : List (List Char) × List Char) c =>
      if c.isWhitespace then
        match st.2 with
        | [] => st
        | w => (w.reverse :: st.1, [])
      else (st.1, c :: st.2))
    ([], [])
  (match st.2 with
   | [] => st.1
   | w => w.reverse :: st.1).reverse

/-- Space-joining of words, modelling `' '.join(...)`. -/
def joinWords : List (List Char) → List Char
  | [] => []
  | w :: t => w ++ t.foldl (fun acc w2 => acc ++ ' ' :: w2) []

/-- Display abbreviation of a driver name to `F. Lastname`
(`f"{x.split()[0][0]}. {' '.join(x.split()[1:])}"` when the name has more
than one word, the name itself otherwise). -/
def abbrevName (x : String) : String :=
  match wordsOf x.data with
  | [] => x
  | [_] => x
  | w :: rest => ⟨w.take 1 ++ '.' :: ' ' :: joinWords rest⟩

/-- One row of the rendered pace table: abbreviated driver name and the
pace cells keyed by event code (the rename to track names is a bijective
relabelling and is kept keyed by code here). -/
structure PaceOutRow where
  driver : String
  cells : List (String × PyF)
deriving DecidableEq

/-- One row of the rendered improvement table. -/
structure ImpOutRow where
  driver : String
  best_first_two : PyF
  best_last_two : PyF
  improvement : PyF
deriving DecidableEq

/-- The pace cell of a rendered pace-table row at a given code. -/
def cellAt (cells : List (String × PyF)) (c : String) : PyF :=
  match cells.lookup c with
  | some v => v
  | none => .nan

/-- Model of `generate_html_tables`.  The pace table projects the driver
and pace columns, abbreviates the driver names, renames the pace columns to
the track names via `zip(track_names, pace_cols)` and drops rows whose
renamed cells are all missing; when `track_names` is longer than the pace
column list the `dropna(subset=track_names)` raises `KeyError`, modelled as
`none`.  The improvement table selects the `Driver_name`,
`best_first_two`, `best_last_two` and `improvement` columns — a `KeyError`
(`none`) when `build_improvement_df` never created them — and drops rows
with a missing improvement. -/
def generate_html_tables (comparison : List CRow) (codes : List String)
    (impr : ImprovementDF) (track_names : List String) :
    Option (List PaceOutRow × List ImpOutRow) :=
  if codes.length < track_names.length then none
  else
    let sub := codes.take track_names.length
    let prows := comparison.map
      (fun L => PaceOutRow.mk (abbrevName L.driver) (codes.map (fun c => (c, alienAt L c))))
    let prows := prows.filter (fun r => ¬ sub.all (fun c => (cellAt r.cells c).isna))
    match impr with
    | .without _ => none
    | .with_cols rows =>
      some (prows,
        (rows.filter (fun r => ¬ r.improvement.isna)).map
          (fun r => ⟨r.driver, r.best_first_two, r.best_last_two, r.improvement⟩))

/-- The three-event championship of the specification's worked scenario:
driver `Ann A` runs events 1 and 3 with reference paces 104.50 and 101.20,
driver `Bob B` runs all three with 103.00, 102.50, 107.50. -/
def scenarioRaces : List (String × String) := [("sc1", "T1"), ("sc2", "T2"), ("sc3", "T3")]

/-- Loaded per-event dataframes of the worked scenario (reference lap 100
for every event, so a lap of `x` seconds is a reference pace of `x`%). -/
def scenarioDfs : String → Option (List Row) := fun t =>
  if t = "T1" then
    process_race_data [⟨"Ann A", "X", .str "104.5"⟩, ⟨"Bob B", "X", .str "103"⟩] 100
  else if t = "T2" then
    process_race_data [⟨"Bob B", "X", .str "102.5"⟩] 100
  else if t = "T3" then
    process_race_data [⟨"Ann A", "X", .str "101.2"⟩, ⟨"Bob B", "X", .str "107.5"⟩] 100
  else none



/-! Helper lemmas about lists, the sort, and the cell operations. -/

theorem filterMapEq (f : α → β) (p : β → Bool) (l : List α) :
    (l.map f).filter p = (l.filter (fun a => p (f a))).map f := by
  induction l with
  | nil => rfl
  | cons a t ih =>
    simp only [List.map_cons, List.filter_cons]
    cases hp : p (f a) <;> simp [hp, ih]

theorem flattenFilter (p : α → Bool) (l : List (List α)) :
    l.flatten.filter p = (l.map (fun s => s.filter p)).flatten := by
  induction l with
  | nil => rfl
  | cons s t ih => simp [List.filter_append, ih]

theorem flattenMapSingle (l : List α) (F : α → List β) (p : α → Bool) (g : α → β)
    (h : ∀ a ∈ l, F a = if p a then [g a] else []) :
    (l.map F).flatten = (l.filter p).map g := by
  induction l with
  | nil => rfl
  | cons a t ih =>
    simp only [List.map_cons, List.flatten_cons, List.filter_cons]
    rw [h a (List.mem_cons_self a t)]
    cases hp : p a with
    | true => simp [ih (fun x hx => h x (List.mem_cons_of_mem a hx))]
    | false => simp [ih (fun x hx => h x (List.mem_cons_of_mem a hx))]

theorem allMapEq (f : α → β) (p : β → Bool) (l : List α) :
    (l.map f).all p = l.all (fun a => p (f a)) := by
  induction l with
  | nil => rfl
  | cons a t ih => simp [ih]

theorem insertSortedPerm (le : α → α → Bool) (a : α) (l : List α) :
    List.Perm (insertSorted le a l) (a :: l) := by
  induction l with
  | nil => exact List.Perm.refl _
  | cons b t ih =>
    simp only [insertSorted]
    split
    · exact List.Perm.refl _
    · exact (ih.cons b).trans (List.Perm.swap a b t)

theorem sortByKeyPerm (le : α → α → Bool) (l : List α) :
    List.Perm (sortByKey le l) l := by
  induction l with
  | nil => exact List.Perm.refl _
  | cons a t ih => exact (insertSortedPerm le a (sortByKey le t)).trans (ih.cons a)

theorem memSortByKey (le : α → α → Bool) (l : List α) (x : α) :
    x ∈ sortByKey le l ↔ x ∈ l := (sortByKeyPerm le l).mem_iff

theorem lookupMem (l : List (String × β)) (c : String) (e : β)
    (h : l.lookup c = some e) : (c, e) ∈ l := by
  induction l with
  | nil => simp [List.lookup] at h
  | cons p t ih =>
    obtain ⟨k, v⟩ := p
    simp only [List.lookup] at h
    by_cases hk : c = k
    · subst hk
      simp at h
      subst h
      exact List.mem_cons_self _ _
    · have hb : (c == k) = false := beq_false_of_ne hk
      rw [hb] at h
      exact List.mem_cons_of_mem _ (ih h)

theorem pyMinSkipIsna (a b : PyF) : (pyMinSkip a b).isna = (a.isna && b.isna) := by
  cases a <;> cases b <;> rfl

theorem pyRowMinIsnaAux (xs : List PyF) (acc : PyF) :
    ((xs.foldl pyMinSkip acc).isna) = (acc.isna && xs.all PyF.isna) := by
  induction xs generalizing acc with
  | nil => simp
  | cons x t ih =>
    simp only [List.foldl_cons, List.all_cons, ih, pyMinSkipIsna]
    cases acc.isna <;> cases x.isna <;> simp

theorem pyRowMinIsna (xs : List PyF) : (pyRowMin xs).isna = xs.all PyF.isna := by
  simpa using pyRowMinIsnaAux xs .nan

theorem pyMinSkipGt107 (a b : PyF) (ha : a.gt107 = false) (hb : b.gt107 = false) :
    (pyMinSkip a b).gt107 = false := by
  cases a <;> cases b <;>
    simp_all [pyMinSkip, PyF.gt107, lt_min_iff, decide_eq_false_iff_not]

theorem pyRowMinGt107Aux (xs : List PyF) (acc : PyF) (hacc : acc.gt107 = false)
    (h : ∀ x ∈ xs, x.gt107 = false) : (xs.foldl pyMinSkip acc).gt107 = false := by
  induction xs generalizing acc with
  | nil => simpa using hacc
  | cons x t ih =>
    exact ih (pyMinSkip acc x) (pyMinSkipGt107 _ _ hacc (h x (List.mem_cons_self x t)))
      (fun y hy => h y (List.mem_cons_of_mem x hy))

theorem pyRowMinGt107 (xs : List PyF) (h : ∀ x ∈ xs, x.gt107 = false) :
    (pyRowMin xs).gt107 = false := pyRowMinGt107Aux xs .nan rfl h

theorem outlier107Gt107 (x : PyF) : (outlier107 x).gt107 = false := by
  cases x with
  | fin q =>
    simp only [outlier107]
    split
    · simp only [PyF.gt107, decide_eq_false_iff_not, not_lt]
      assumption
    · rfl
  | pinf => rfl
  | ninf => rfl
  | nan => rfl

theorem repl0Gt107 (x : PyF) (h : x.gt107 = false) : (repl0 x).gt107 = false := by
  unfold repl0
  split <;> simp_all [PyF.gt107]

theorem outlierRepl0NeZero (x : PyF) : outlier107 (repl0 x) ≠ .fin 0 := by
  unfold repl0
  split
  · simp [outlier107]
  · rename_i hx
    cases x with
    | fin q =>
      simp only [outlier107]
      split
      · simp_all
      · simp
    | pinf => simp [outlier107]
    | ninf => simp [outlier107]
    | nan => simp [outlier107]

theorem repl0EqSelf (x : PyF) (h : x ≠ .fin 0) : repl0 x = x := by
  unfold repl0
  split
  · exact absurd (by assumption) h
  · rfl

theorem subNanLeft (y : PyF) : PyF.sub .nan y = .nan := by cases y <;> rfl

theorem subNanRight (x : PyF) : PyF.sub x .nan = .nan := by cases x <;> rfl

/-- Shape of the comparison table produced by the engine: it is the sort of
the outlier-filtered, dropna-filtered, zero-replaced merge result. -/
theorem comparisonShape (races : List (String × String)) (dfs : String → Option (List Row))
    (t : List CRow) (codes : List String)
    (h : process_races_into_comparison_df races dfs = (some t, codes)) :
    ∃ merged : List CRow,
      t = sortByKey leDriver (((merged.map cleanRow).filter (keepRow codes)).map outRow) := by
  match races with
  | [] => simp [process_races_into_comparison_df] at h
  | (c0, t0) :: rest =>
    simp only [process_races_into_comparison_df] at h
    cases hdf : dfs t0 with
    | none => rw [hdf] at h; simp at h
    | some df0 =>
      rw [hdf] at h
      simp only [Prod.mk.injEq, Option.some.injEq] at h
      obtain ⟨ht, hc⟩ := h
      subst hc
      exact ⟨_, ht.symm⟩

/-- Every pace cell of a final comparison row is the image of some value
under the zero-replacement followed by the outlier replacement. -/
theorem finalCellShape (races : List (String × String)) (dfs : String → Option (List Row))
    (t : List CRow) (codes : List String)
    (h : process_races_into_comparison_df races dfs = (some t, codes)) :
    ∀ L ∈ t, ∀ ce ∈ L.cells, ∃ y : PyF, ce.2.alien = outlier107 (repl0 y) := by
  obtain ⟨merged, ht⟩ := comparisonShape races dfs t codes h
  intro L hL ce hce
  rw [ht, memSortByKey] at hL
  obtain ⟨M, hM, hLM⟩ := List.mem_map.mp hL
  have hM2 := List.mem_of_mem_filter hM
  obtain ⟨N, _, hNM⟩ := List.mem_map.mp hM2
  subst hLM
  subst hNM
  simp only [outRow, cleanRow, List.map_map] at hce
  obtain ⟨p, _, hp⟩ := List.mem_map.mp hce
  subst hp
  exact ⟨p.2.alien, rfl⟩

/-- Case analysis for `alienAt`: the cell is either missing or carried by
the row. -/
theorem alienAtCases (L : CRow) (c : String) :
    alienAt L c = .nan ∨ ∃ e, (c, e) ∈ L.cells ∧ alienAt L c = e.alien := by
  unfold alienAt
  cases hl : L.cells.lookup c with
  | none => exact Or.inl rfl
  | some e => exact Or.inr ⟨e, lookupMem _ _ _ hl, rfl⟩

/-- No pace cell of a final comparison row exceeds the outlier ceiling. -/
theorem finalAlienAtGt107 (races : List (String × String)) (dfs : String → Option (List Row))
    (t : List CRow) (codes : List String)
    (h : process_races_into_comparison_df races dfs = (some t, codes)) :
    ∀ L ∈ t, ∀ c, (alienAt L c).gt107 = false := by
  intro L hL c
  rcases alienAtCases L c with he | ⟨e, hmem, he⟩
  · rw [he]; rfl
  · rw [he]
    obtain ⟨y, hy⟩ := finalCellShape races dfs t codes h L hL (c, e) hmem
    rw [hy]
    exact outlier107Gt107 _

/-- On a final comparison row the second `replace(0.00, NaN)` performed by
`build_improvement_df` is the identity: no pace cell holds an exact 0. -/
theorem finalRepl0AlienAt (races : List (String × String)) (dfs : String → Option (List Row))
    (t : List CRow) (codes : List String)
    (h : process_races_into_comparison_df races dfs = (some t, codes)) :
    ∀ L ∈ t, ∀ c, repl0 (alienAt L c) = alienAt L c := by
  intro L hL c
  rcases alienAtCases L c with he | ⟨e, hmem, he⟩
  · rw [he]; rfl
  · rw [he]
    obtain ⟨y, hy⟩ := finalCellShape races dfs t codes h L hL (c, e) hmem
    rw [hy]
    exact repl0EqSelf _ (outlierRepl0NeZero y)

theorem memTrimChars (cs : List Char) (c : Char) (h : c ∈ trimChars cs) : c ∈ cs := by
  unfold trimChars at h
  rw [List.mem_reverse] at h
  have h1 := (List.dropWhile_sublist (l := (cs.dropWhile Char.isWhitespace).reverse)
    (p := Char.isWhitespace)).subset h
  rw [List.mem_reverse] at h1
  exact (List.dropWhile_sublist (l := cs) (p := Char.isWhitespace)).subset h1

theorem splitOnCharNeNil (sep : Char) (cs : List Char) : splitOnChar sep cs ≠ [] := by
  cases cs with
  | nil => simp [splitOnChar]
  | cons a t =>
    unfold splitOnChar
    split
    · simp
    · split <;> simp

theorem memSplitOnChar (sep : Char) (cs : List Char) (piece : List Char)
    (hp : piece ∈ splitOnChar sep cs) (c : Char) (hc : c ∈ piece) : c ∈ cs := by
  induction cs generalizing piece with
  | nil =>
    simp only [splitOnChar, List.mem_singleton] at hp
    subst hp
    simp at hc
  | cons a t ih =>
    unfold splitOnChar at hp
    by_cases ha : a = sep
    · rw [if_pos ha] at hp
      rcases List.mem_cons.mp hp with h1 | h1
      · subst h1; simp at hc
      · exact List.mem_cons_of_mem a (ih piece h1 hc)
    · rw [if_neg ha] at hp
      cases hsp : splitOnChar sep t with
      | nil => exact absurd hsp (splitOnCharNeNil sep t)
      | cons hd r =>
        rw [hsp] at hp
        rcases List.mem_cons.mp hp with h1 | h1
        · subst h1
          rcases List.mem_cons.mp hc with h2 | h2
          · exact h2 ▸ List.mem_cons_self a t
          · exact List.mem_cons_of_mem a (ih hd (hsp ▸ List.mem_cons_self hd r) h2)
        · exact List.mem_cons_of_mem a (ih piece (hsp ▸ List.mem_cons_of_mem hd h1) hc)

theorem parseSignFst (cs : List Char) (h : ∀ t, cs ≠ '-' :: t) : (parseSign cs).1 = 1 := by
  unfold parseSign
  split
  · rfl
  · rename_i t
    exact absurd rfl (h t)
  · rfl

theorem pyFloatCoreNonneg (cs : List Char) (hhead : ∀ t, cs ≠ '-' :: t) (q : ℚ)
    (hq : pyFloatCore cs = some q) : 0 ≤ q := by
  have hs : (parseSign cs).1 = 1 := parseSignFst cs hhead
  simp only [pyFloatCore] at hq
  split at hq
  · exact absurd hq (by simp)
  · split at hq
    · rw [Option.some.injEq] at hq
      rw [← hq, hs, one_mul]
      positivity
    · split at hq
      · split at hq
        · exact absurd hq (by simp)
        · rw [Option.some.injEq] at hq
          rw [← hq, hs, one_mul]
          positivity
      · exact absurd hq (by simp)

theorem pyFloatCharsNonneg (cs : List Char) (h : '-' ∈ cs → False) (q : ℚ)
    (hq : pyFloatChars cs = some q) : 0 ≤ q := by
  refine pyFloatCoreNonneg (trimChars cs) (fun t ht => ?_) q hq
  exact h (memTrimChars cs '-' (ht ▸ List.mem_cons_self '-' t))

/-- C5: a lap-time representation that is missing, empty or the `DNF`
marker converts to the sentinel 0; a stripped representation containing the
separator `:` converts to `minutes * 60 + seconds` when its first two
pieces parse as floats and to the sentinel otherwise; any other
representation converts to its bare float value when it parses and to the
sentinel otherwise.  The conversion is a total function, so no exception
escapes. -/
theorem C5_laptime_parsing (rep : LapRep) :
    (rep = LapRep.na ∨ rep = LapRep.str "" ∨ rep = LapRep.str "DNF" →
      convert_laptime_to_seconds rep = 0) ∧
    (∀ s : String, rep = LapRep.str s → ¬ s = "" → ¬ s = "DNF" →
      (((trimChars s.data).contains ':') = true →
        ∀ p0 p1 ps, splitOnChar ':' (trimChars s.data) = p0 :: p1 :: ps →
          (∀ m x, pyFloatChars p0 = some m → pyFloatChars p1 = some x →
            convert_laptime_to_seconds rep = m * 60 + x) ∧
          ((pyFloatChars p0 = none ∨ pyFloatChars p1 = none) →
            convert_laptime_to_seconds rep = 0)) ∧
      (((trimChars s.data).contains ':') = false →
        (∀ q, pyFloatChars (trimChars s.data) = some q →
          convert_laptime_to_seconds rep = q) ∧
        (pyFloatChars (trimChars s.data) = none →
          convert_laptime_to_seconds rep = 0))) := by
  constructor
  · rintro (rfl | rfl | rfl) <;> decide
  · rintro s rfl hne hnd
    have hcond : ¬ (s = "" ∨ s = "DNF") := not_or.mpr ⟨hne, hnd⟩
    constructor
    · intro hcol p0 p1 ps hsplit
      constructor
      · intro m x hm hx
        simp only [convert_laptime_to_seconds]
        rw [if_neg hcond, if_pos hcol, hsplit]
        simp only [hm, hx]
      · intro hor
        simp only [convert_laptime_to_seconds]
        rw [if_neg hcond, if_pos hcol, hsplit]
        rcases hor with hm | hx
        · simp only [hm]
        · cases hp0 : pyFloatChars p0 <;> simp only [hp0, hx]
    · intro hcol
      constructor
      · intro q hq
        simp only [convert_laptime_to_seconds]
        rw [if_neg hcond, if_neg (by rw [hcol]; simp), hq]
      · intro hq
        simp only [convert_laptime_to_seconds]
        rw [if_neg hcond, if_neg (by rw [hcol]; simp), hq]

/-- Witness for C5 at the concrete representations `DNF` and `1:30.5`: the
marker converts to the sentinel, and the formatted laptime converts to
`1 * 60 + 30.5` seconds. -/
theorem C5_laptime_parsing_witness :
    convert_laptime_to_seconds (LapRep.str "DNF") = 0 ∧
    convert_laptime_to_seconds (LapRep.str "1:30.5") = 1 * 60 + 61/2 :=
  ⟨(C5_laptime_parsing (LapRep.str "DNF")).1 (Or.inr (Or.inr rfl)),
   (((C5_laptime_parsing (LapRep.str "1:30.5")).2 "1:30.5" rfl (by decide) (by decide)).1
      (by decide) ['1'] ['3', '0', '.', '5'] [] (by decide)).1 1 (61/2)
      (by decide) (by decide)⟩

/-- C10 counterexample: the representation `-5` is neither the sentinel nor
a non-negative value — `convert_laptime_to_seconds` returns the negative
value −5, so the produced `best_lap_seconds` can be negative. -/
theorem C10_counterexample :
    convert_laptime_to_seconds (LapRep.str "-5") = -5 ∧
    convert_laptime_to_seconds (LapRep.str "-5") < 0 := by
  constructor <;> decide

/-- C10 as amended: for every representation that does not contain a minus
sign — in particular every well-formed laptime — the produced value is
non-negative (a non-negative number or the sentinel 0); a representation
with a minus sign can produce a negative value. -/
theorem C10_nonneg_without_minus :
    0 ≤ convert_laptime_to_seconds LapRep.na ∧
    ∀ s : String, ('-' ∈ s.data → False) →
      0 ≤ convert_laptime_to_seconds (LapRep.str s) := by
  constructor
  · decide
  · intro s hminus
    simp only [convert_laptime_to_seconds]
    split
    · exact le_refl 0
    · have hmt : '-' ∈ trimChars s.data → False :=
        fun h => hminus (memTrimChars s.data '-' h)
      split
      · cases hsp : splitOnChar ':' (trimChars s.data) with
        | nil => exact le_refl (0:ℚ)
        | cons p0 r =>
          cases r with
          | nil => exact le_refl (0:ℚ)
          | cons p1 ps =>
            have hp0 : '-' ∈ p0 → False := fun h =>
              hmt (memSplitOnChar ':' _ p0 (hsp ▸ List.mem_cons_self p0 _) '-' h)
            have hp1 : '-' ∈ p1 → False := fun h =>
              hmt (memSplitOnChar ':' _ p1
                (hsp ▸ List.mem_cons_of_mem p0 (List.mem_cons_self p1 ps)) '-' h)
            cases hm : pyFloatChars p0 with
            | none =>
              cases hx : pyFloatChars p1 <;> simp only [hm, hx] <;> exact le_refl (0:ℚ)
            | some m =>
              cases hx : pyFloatChars p1 with
              | none => simp only [hm, hx]; exact le_refl (0:ℚ)
              | some x =>
                simp only [hm, hx]
                have h1 := pyFloatCharsNonneg p0 hp0 m hm
                have h2 := pyFloatCharsNonneg p1 hp1 x hx
                exact add_nonneg (mul_nonneg h1 (by norm_num)) h2
      · cases hq : pyFloatChars (trimChars s.data) with
        | none => exact le_refl (0:ℚ)
        | some q => exact pyFloatCharsNonneg _ hmt q hq

/-- Witness for the amended C10 at the representation `1:30.5`. -/
theorem C10_nonneg_without_minus_witness :
    0 ≤ convert_laptime_to_seconds (LapRep.str "1:30.5") :=
  C10_nonneg_without_minus.2 "1:30.5" (by decide)

theorem minPosAux (fl : List ℚ) (acc : Option ℚ) (hfl : ∀ x ∈ fl, 0 < x)
    (hacc : ∀ a, acc = some a → 0 < a) (m : ℚ)
    (hm : fl.foldl (fun acc q => match acc with | none => some q | some mm => some (min mm q))
        acc = some m) : 0 < m := by
  induction fl generalizing acc with
  | nil => exact hacc m hm
  | cons x t ih =>
    rw [List.foldl_cons] at hm
    refine ih _ (fun y hy => hfl y (List.mem_cons_of_mem x hy)) ?_ hm
    intro a ha
    cases acc with
    | none =>
      simp only [Option.some.injEq] at ha
      exact ha ▸ hfl x (List.mem_cons_self x t)
    | some b =>
      simp only [Option.some.injEq] at ha
      exact ha ▸ lt_min (hacc b rfl) (hfl x (List.mem_cons_self x t))

theorem minPosPos (l : List ℚ) (m : ℚ) (h : minPos l = some m) : 0 < m := by
  refine minPosAux (l.filter (fun q => decide (0 < q))) none ?_ (by simp) m h
  intro x hx
  exact of_decide_eq_true (List.mem_filter.mp hx).2

theorem round2qHundred : round2q 100 = 100 := by decide

/-- Laptime column of a processed event: the `laptime_sec` values of the
produced rows are exactly the converted laptimes of the raw records. -/
theorem processRowsSec (drivers : List RawDriver) (ref : ℚ) (m : Option ℚ) :
    (drivers.map (mkRow m ref)).map (fun r => r.laptime_sec) =
      drivers.map (fun d => convert_laptime_to_seconds d.bestLap) := by
  rw [List.map_map]
  rfl

/-- C6: in both `process_race_data` and `process_multiclass_race_data`,
every produced row's `pace_pct_reference` equals
`round(laptime_sec / ref_laptime * 100, 2)` when the reference lap is
strictly positive, and equals exactly 100 when the configured reference lap
is zero or negative; in neither case is an error raised (both functions are
total). -/
theorem C6_pace_pct_reference (drivers : List RawDriver) (ref : ℚ) :
    (∀ rows, process_race_data drivers ref = some rows →
      ∀ r ∈ rows, r.laptime_pct_alien =
        if 0 < ref then PyF.fin (round2q (r.laptime_sec / ref * 100)) else PyF.fin 100) ∧
    (∀ cls rows, process_multiclass_race_data drivers cls ref = some rows →
      ∀ r ∈ rows, r.laptime_pct_alien =
        if 0 < ref then PyF.fin (round2q (r.laptime_sec / ref * 100)) else PyF.fin 100) := by
  constructor
  · intro rows h r hr
    simp only [process_race_data] at h
    split at h
    · exact absurd h (by simp)
    · rw [Option.some.injEq] at h
      subst h
      obtain ⟨d, _, rfl⟩ := List.mem_map.mp hr
      simp only [mkRow]
  · intro cls rows h r hr
    simp only [process_multiclass_race_data] at h
    split at h
    · exact absurd h (by simp)
    · split at h
      · exact absurd h (by simp)
      · rw [Option.some.injEq] at h
        subst h
        obtain ⟨d, _, rfl⟩ := List.mem_map.mp hr
        simp only [mkRow]

/-- Witness for C6: in a one-driver event with reference lap 100 and lap
104.5, the produced reference pace is `round(104.5 / 100 * 100, 2)`. -/
theorem C6_pace_pct_reference_witness :
    (⟨"A B", 209/2, .fin 100, .fin (209/2)⟩ : Row).laptime_pct_alien =
      if (0:ℚ) < 100 then PyF.fin (round2q ((209:ℚ)/2 / 100 * 100)) else PyF.fin 100 :=
  (C6_pace_pct_reference [⟨"A B", "X", .str "104.5"⟩] 100).1
    [⟨"A B", 209/2, .fin 100, .fin (209/2)⟩] (by decide)
    (⟨"A B", 209/2, .fin 100, .fin (209/2)⟩ : Row) (by decide)

/-- C7: in a processed event with at least one valid (strictly positive)
lap, every row with a valid lap has field pace
`round(min_valid_lap / laptime_sec * 100, 2)`, and in particular the row
holding the fastest valid lap has field pace exactly 100; when no valid lap
exists in the field every row's field pace is exactly 100.  (Rows with the
sentinel lap 0 get `+inf` from the float division, the value the formula
takes under IEEE arithmetic.) -/
theorem C7_pace_pct_field (drivers : List RawDriver) (ref : ℚ) (rows : List Row)
    (h : process_race_data drivers ref = some rows) :
    (∀ m, minPos (rows.map (fun r => r.laptime_sec)) = some m →
      ∀ r ∈ rows,
        (0 < r.laptime_sec →
          r.laptime_pct = PyF.fin (round2q (m / r.laptime_sec * 100))) ∧
        (r.laptime_sec = m → r.laptime_pct = PyF.fin 100)) ∧
    (minPos (rows.map (fun r => r.laptime_sec)) = none →
      ∀ r ∈ rows, r.laptime_pct = PyF.fin 100) := by
  simp only [process_race_data] at h
  split at h
  · exact absurd h (by simp)
  · rw [Option.some.injEq] at h
    subst h
    rw [processRowsSec]
    constructor
    · intro m hm r hr
      obtain ⟨d, _, rfl⟩ := List.mem_map.mp hr
      rw [hm]
      have hm0 : 0 < m := minPosPos _ m hm
      constructor
      · intro hlap
        simp only [mkRow] at hlap ⊢
        rw [pyDiv, if_pos (ne_of_gt hlap)]
        rfl
      · intro hlap
        simp only [mkRow] at hlap ⊢
        rw [hlap, pyDiv, if_pos (ne_of_gt hm0), div_self (ne_of_gt hm0)]
        simp only [PyF.mul100, PyF.round2, one_mul, round2qHundred]
    · intro hm r hr
      obtain ⟨d, _, rfl⟩ := List.mem_map.mp hr
      rw [hm]
      rfl

/-- Witness for C7: in a two-driver event where one driver laps in 104.5
seconds and the other does not finish, the valid-lap minimum is 104.5 and
the fastest driver's field pace is exactly 100. -/
theorem C7_pace_pct_field_witness :
    ((0:ℚ) < 209/2 →
      (⟨"A B", 209/2, .fin 100, .fin (209/2)⟩ : Row).laptime_pct =
        PyF.fin (round2q ((209:ℚ)/2 / (209/2) * 100))) ∧
    ((209:ℚ)/2 = 209/2 →
      (⟨"A B", 209/2, .fin 100, .fin (209/2)⟩ : Row).laptime_pct = PyF.fin 100) :=
  (C7_pace_pct_field [⟨"A B", "X", .str "104.5"⟩, ⟨"C D", "X", .str "DNF"⟩] 100
      [⟨"A B", 209/2, .fin 100, .fin (209/2)⟩, ⟨"C D", 0, .pinf, .fin 0⟩]
      (by decide)).1 (209/2) (by decide)
      (⟨"A B", 209/2, .fin 100, .fin (209/2)⟩ : Row) (by decide)

/-- The comparison table the engine produces for the worked scenario. -/
def scenarioTable : List CRow :=
  [⟨"Ann A", [("sc1", ⟨.fin (209/2), .fin (2464/25), .fin (209/2)⟩),
              ("sc2", ⟨.nan, .nan, .nan⟩),
              ("sc3", ⟨.fin (506/5), .fin 100, .fin (506/5)⟩)]⟩,
   ⟨"Bob B", [("sc1", ⟨.fin 103, .fin 100, .fin 103⟩),
              ("sc2", ⟨.fin (205/2), .fin 100, .fin (205/2)⟩),
              ("sc3", ⟨.fin (215/2), .fin (4707/50), .nan⟩)]⟩]

/-- The improvement rows the engine derives for the worked scenario. -/
def scenarioImprovement : List IRow :=
  [⟨"Ann A", [("sc1", .fin (209/2)), ("sc2", .nan), ("sc3", .fin (506/5))],
    .fin (209/2), .fin (506/5), .fin (33/10)⟩,
   ⟨"Bob B", [("sc1", .fin 103), ("sc2", .fin (205/2)), ("sc3", .nan)],
    .fin (205/2), .fin (205/2), .fin 0⟩]



/-- Membership description of the improvement rows: every row of a
`with_cols` result of `build_improvement_df` is the derived row of some
comparison row. -/
theorem buildImprovementMem (comparison : List CRow) (codes : List String) (rows : List IRow)
    (hb : build_improvement_df comparison codes = ImprovementDF.with_cols rows) :
    ∀ r ∈ rows, ∃ L ∈ comparison, r = mkIRow (L.driver, improvementBase codes L) := by
  intro r hr
  simp only [build_improvement_df] at hb
  split at hb
  · simp only [ImprovementDF.with_cols.injEq] at hb
    subst hb
    rw [memSortByKey] at hr
    obtain ⟨b, hbm, rfl⟩ := List.mem_map.mp hr
    have hbm2 := List.mem_of_mem_filter hbm
    obtain ⟨L, hL, rfl⟩ := List.mem_map.mp hbm2
    exact ⟨L, hL, rfl⟩
  · exact absurd hb (by simp)

/-- C1: no pace cell of the final comparison table holds a value strictly
greater than 107, and in the derived improvement rows neither the projected
pace cells nor `best_first_two` nor `best_last_two` hold a value strictly
greater than 107 — every such value was replaced by the missing marker
before the table is exposed or the improvement is computed. -/
theorem C1_outlier_ceiling (races : List (String × String)) (dfs : String → Option (List Row))
    (t : List CRow) (codes : List String)
    (h : process_races_into_comparison_df races dfs = (some t, codes)) :
    (∀ L ∈ t, ∀ ce ∈ L.cells, ce.2.alien.gt107 = false) ∧
    (∀ rows, build_improvement_df t codes = ImprovementDF.with_cols rows →
      ∀ r ∈ rows, (∀ p ∈ r.alien, p.2.gt107 = false) ∧
        r.best_first_two.gt107 = false ∧ r.best_last_two.gt107 = false) := by
  have hcell : ∀ L ∈ t, ∀ ce ∈ L.cells, ce.2.alien.gt107 = false := by
    intro L hL ce hce
    obtain ⟨y, hy⟩ := finalCellShape races dfs t codes h L hL ce hce
    rw [hy]
    exact outlier107Gt107 _
  refine ⟨hcell, ?_⟩
  intro rows hb r hr
  obtain ⟨L, hL, rfl⟩ := buildImprovementMem t codes rows hb r hr
  have hbase : ∀ p ∈ improvementBase codes L, (Prod.snd p).gt107 = false := by
    intro p hp
    obtain ⟨c, _, rfl⟩ := List.mem_map.mp hp
    exact repl0Gt107 _ (finalAlienAtGt107 races dfs t codes h L hL c)
  refine ⟨?_, ?_, ?_⟩
  · intro p hp
    simp only [mkIRow] at hp
    exact hbase p hp
  · simp only [mkIRow]
    apply pyRowMinGt107
    intro x hx
    obtain ⟨p, hp, rfl⟩ := List.mem_map.mp hx
    exact hbase p (List.take_subset _ _ hp)
  · simp only [mkIRow]
    apply pyRowMinGt107
    intro x hx
    obtain ⟨p, hp, rfl⟩ := List.mem_map.mp hx
    exact hbase p (List.drop_subset _ _ hp)

/-- Witness for C1 at the worked three-event scenario. -/
theorem C1_outlier_ceiling_witness :
    (∀ L ∈ scenarioTable, ∀ ce ∈ L.cells, ce.2.alien.gt107 = false) ∧
    (∀ rows, build_improvement_df scenarioTable ["sc1", "sc2", "sc3"] =
        ImprovementDF.with_cols rows →
      ∀ r ∈ rows, (∀ p ∈ r.alien, p.2.gt107 = false) ∧
        r.best_first_two.gt107 = false ∧ r.best_last_two.gt107 = false) :=
  C1_outlier_ceiling scenarioRaces scenarioDfs scenarioTable ["sc1", "sc2", "sc3"] (by decide)

/-- C2: when the comparison table has at least two event columns, every
derived improvement row belongs to a comparison row and carries
`best_first_two` equal to the NaN-skipping minimum of the first two pace
columns in championship order, `best_last_two` equal to the NaN-skipping
minimum of the last two, and `improvement` equal to their difference. -/
theorem C2_improvement_columns (races : List (String × String))
    (dfs : String → Option (List Row)) (t : List CRow) (codes : List String)
    (rows : List IRow)
    (h : process_races_into_comparison_df races dfs = (some t, codes))
    (h2 : 2 ≤ codes.length)
    (hb : build_improvement_df t codes = ImprovementDF.with_cols rows) :
    ∀ r ∈ rows, ∃ L ∈ t, r.driver = L.driver ∧
      r.best_first_two = pyRowMin ((codes.take 2).map (alienAt L)) ∧
      r.best_last_two = pyRowMin ((codes.drop (codes.length - 2)).map (alienAt L)) ∧
      r.improvement = PyF.sub r.best_first_two r.best_last_two := by
  intro r hr
  obtain ⟨L, hL, rfl⟩ := buildImprovementMem t codes rows hb r hr
  have hrepl : ∀ c, repl0 (alienAt L c) = alienAt L c :=
    finalRepl0AlienAt races dfs t codes h L hL
  have hmap : ∀ cs : List String,
      (cs.map (fun c => (c, repl0 (alienAt L c)))).map Prod.snd = cs.map (alienAt L) := by
    intro cs
    rw [List.map_map]
    exact List.map_congr_left (fun c _ => hrepl c)
  refine ⟨L, hL, rfl, ?_, ?_, rfl⟩
  · simp only [mkIRow, improvementBase]
    rw [← List.map_take, hmap]
  · simp only [mkIRow, improvementBase]
    rw [List.length_map, ← List.map_drop, hmap]

/-- Witness for C2 at the worked scenario: `Ann A` has 104.50 in event 1,
a missing cell in event 2 and 101.20 in event 3, and gets
`best_first_two = 104.50`, `best_last_two = 101.20`,
`improvement = 3.30`. -/
theorem C2_improvement_columns_witness :
    (∃ r ∈ scenarioImprovement, r.driver = "Ann A" ∧
      r.best_first_two = PyF.fin (209/2) ∧ r.best_last_two = PyF.fin (506/5) ∧
      r.improvement = PyF.fin (33/10)) ∧
    (∀ r ∈ scenarioImprovement, ∃ L ∈ scenarioTable, r.driver = L.driver ∧
      r.best_first_two = pyRowMin ((["sc1", "sc2", "sc3"].take 2).map (alienAt L)) ∧
      r.best_last_two =
        pyRowMin ((["sc1", "sc2", "sc3"].drop (["sc1", "sc2", "sc3"].length - 2)).map
          (alienAt L)) ∧
      r.improvement = PyF.sub r.best_first_two r.best_last_two) :=
  ⟨by decide,
   C2_improvement_columns scenarioRaces scenarioDfs scenarioTable ["sc1", "sc2", "sc3"]
     scenarioImprovement (by decide) (by decide) (by decide)⟩

/-- A two-event championship in which driver `A B` exceeds the outlier
ceiling (pace 110) in both events while driver `C D` stays below it. -/
def c3Dfs : String → Option (List Row) := fun s =>
  if s = "P1" then process_race_data [⟨"A B", "X", .str "110"⟩, ⟨"C D", "X", .str "104.5"⟩] 100
  else if s = "P2" then process_race_data [⟨"A B", "X", .str "110"⟩, ⟨"C D", "X", .str "104.5"⟩] 100
  else none

/-- The all-missing comparison row the engine keeps for driver `A B`. -/
def c3RowA : CRow :=
  ⟨"A B", [("sc1", ⟨.fin 110, .fin 95, .nan⟩), ("sc2", ⟨.fin 110, .fin 95, .nan⟩)]⟩

/-- The comparison table the engine produces for `c3Dfs`. -/
def c3Table : List CRow :=
  [c3RowA,
   ⟨"C D", [("sc1", ⟨.fin (209/2), .fin 100, .fin (209/2)⟩),
            ("sc2", ⟨.fin (209/2), .fin 100, .fin (209/2)⟩)]⟩]

/-- The improvement rows derived from `c3Table` (driver `A B` is dropped by
the all-missing filter of `build_improvement_df`). -/
def c3Improvement : List IRow :=
  [⟨"C D", [("sc1", .fin (209/2)), ("sc2", .fin (209/2))],
    .fin (209/2), .fin (209/2), .fin 0⟩]

/-- The rendered pace table for `c3Table`: the all-missing row of `A B` is
dropped by `generate_html_tables`. -/
def c3HtmlPace : List PaceOutRow :=
  [⟨"C. D", [("sc1", .fin (209/2)), ("sc2", .fin (209/2))]⟩]

/-- The rendered improvement table for `c3Table`. -/
def c3HtmlImprovement : List ImpOutRow := [⟨"C D", .fin (209/2), .fin (209/2), .fin 0⟩]

/-- C3 counterexample: in the engine's final comparison table for `c3Dfs`
the row of driver `A B` is present although every one of its pace cells is
missing — the drop of all-missing rows (line 317) runs before the outlier
replacement (lines 319–320), not after it as the claim states. -/
theorem C3_counterexample :
    (process_races_into_comparison_df [("sc1", "P1"), ("sc2", "P2")] c3Dfs).1 =
      some c3Table ∧
    c3RowA ∈ c3Table ∧
    (["sc1", "sc2"].all (fun c => (alienAt c3RowA c).isna)) = true :=
  ⟨by decide, by decide, by decide⟩

/-- C3 as amended: because the drop of all-missing rows precedes the
outlier replacement, a driver whose every pace value exceeds 107 can remain
in the final comparison table with all pace cells missing; such rows are
removed downstream — the rendered pace table of `generate_html_tables`
contains no row whose pace cells are all missing. -/
theorem C3_html_pace_drops_all_missing (comparison : List CRow) (codes : List String)
    (impr : ImprovementDF) (tracks : List String) (pt : List PaceOutRow)
    (it : List ImpOutRow) (hlen : tracks.length = codes.length)
    (hg : generate_html_tables comparison codes impr tracks = some (pt, it)) :
    ∀ r ∈ pt, ∃ c ∈ codes, (cellAt r.cells c).isna = false := by
  intro r hr
  simp only [generate_html_tables] at hg
  split at hg
  · exact absurd hg (by simp)
  · split at hg
    · exact absurd hg (by simp)
    · simp only [Option.some.injEq, Prod.mk.injEq] at hg
      obtain ⟨hpt, _⟩ := hg
      subst hpt
      rw [hlen, List.take_length] at hr
      have hpred := of_decide_eq_true (List.mem_filter.mp hr).2
      have h2 : ¬ ∀ c ∈ codes, (cellAt r.cells c).isna = true := by
        simpa using hpred
      push_neg at h2
      obtain ⟨c, hc, hne⟩ := h2
      exact ⟨c, hc, by simpa using hne⟩

/-- Witness for the amended C3 at the concrete two-event table `c3Table`:
the all-missing row of `A B` is in the comparison table but not in the
rendered pace table, and every rendered pace row has a non-missing cell. -/
theorem C3_html_pace_drops_all_missing_witness :
    (c3RowA ∈ c3Table ∧ (["sc1", "sc2"].all (fun c => (alienAt c3RowA c).isna)) = true) ∧
    (c3HtmlPace.all (fun r => r.driver ≠ "A. B")) = true ∧
    (∀ r ∈ c3HtmlPace, ∃ c ∈ ["sc1", "sc2"], (cellAt r.cells c).isna = false) :=
  ⟨⟨by decide, by decide⟩, by decide,
   C3_html_pace_drops_all_missing c3Table ["sc1", "sc2"]
     (ImprovementDF.with_cols c3Improvement) ["T1", "T2"] c3HtmlPace c3HtmlImprovement
     (by decide) (by decide)⟩

/-- A championship with a single valid event and a single driver. -/
def c4Dfs : String → Option (List Row) := fun s =>
  if s = "Portimao" then process_race_data [⟨"A B", "X", .str "104.5"⟩] 100 else none

/-- C4 evidence: with a single event column the engine produces a
comparison table, `build_improvement_df` returns a dataframe without the
derived improvement columns (a non-empty partial result, not an empty
record set), and `generate_html_tables` — which unconditionally selects
`best_first_two`, `best_last_two` and `improvement` — fails on it
(a `KeyError`, modelled as `none`), instead of yielding an empty
improvement set without error as the claim states. -/
theorem C4_single_event_keyerror :
    process_races_into_comparison_df [("sc1", "Portimao")] c4Dfs =
      (some [⟨"A B", [("sc1", ⟨.fin (209/2), .fin 100, .fin (209/2)⟩)]⟩], ["sc1"]) ∧
    build_improvement_df [⟨"A B", [("sc1", ⟨.fin (209/2), .fin 100, .fin (209/2)⟩)]⟩]
        ["sc1"] =
      ImprovementDF.without [("A B", [("sc1", PyF.fin (209/2))])] ∧
    generate_html_tables [⟨"A B", [("sc1", ⟨.fin (209/2), .fin 100, .fin (209/2)⟩)]⟩]
        ["sc1"] (ImprovementDF.without [("A B", [("sc1", PyF.fin (209/2))])])
        ["Portimao"] = none :=
  ⟨by decide, by decide, by decide⟩

/-- Conversion from a true missing test to the cell being NaN. -/
theorem isnaEqNan (x : PyF) (h : x.isna = true) : x = PyF.nan := by
  cases x <;> simp_all [PyF.isna]

/-- C9: in the engine's improvement rows, a row whose pace cells are
missing in all of the first two columns or in all of the last two columns
has a missing improvement value; every row of the rendered improvement
table comes from an improvement row whose first-two and last-two pace
cells are not all missing (the all-missing ones are excluded there); and
every improvement row corresponds to a row that is retained in the
comparison table. -/
theorem C9_missing_improvement_excluded (races : List (String × String))
    (dfs : String → Option (List Row)) (t : List CRow) (codes : List String)
    (rows : List IRow)
    (h : process_races_into_comparison_df races dfs = (some t, codes))
    (hb : build_improvement_df t codes = ImprovementDF.with_cols rows) :
    (∀ r ∈ rows,
      ((r.alien.take 2).all (fun p => p.2.isna) = true ∨
        (r.alien.drop (r.alien.length - 2)).all (fun p => p.2.isna) = true) →
      r.improvement = PyF.nan) ∧
    (∀ tracks pt it,
      generate_html_tables t codes (ImprovementDF.with_cols rows) tracks = some (pt, it) →
      ∀ ir ∈ it, ∃ r ∈ rows, ir.driver = r.driver ∧ ir.improvement = r.improvement ∧
        (r.alien.take 2).all (fun p => p.2.isna) = false ∧
        (r.alien.drop (r.alien.length - 2)).all (fun p => p.2.isna) = false) ∧
    (∀ r ∈ rows, ∃ L ∈ t, r.driver = L.driver) := by
  have hnan : ∀ r ∈ rows,
      ((r.alien.take 2).all (fun p => p.2.isna) = true ∨
        (r.alien.drop (r.alien.length - 2)).all (fun p => p.2.isna) = true) →
      r.improvement = PyF.nan := by
    intro r hr hall
    obtain ⟨L, hL, rfl⟩ := buildImprovementMem t codes rows hb r hr
    simp only [mkIRow] at hall ⊢
    rcases hall with h1 | h1
    · have : (pyRowMin ((((L.driver, improvementBase codes L)).2.take 2).map Prod.snd)).isna
          = true := by
        rw [pyRowMinIsna, allMapEq]
        exact h1
      rw [isnaEqNan _ this, subNanLeft]
    · have : (pyRowMin ((((L.driver, improvementBase codes L)).2.drop
          (((L.driver, improvementBase codes L)).2.length - 2)).map Prod.snd)).isna = true := by
        rw [pyRowMinIsna, allMapEq]
        exact h1
      rw [isnaEqNan _ this, subNanRight]
  refine ⟨hnan, ?_, ?_⟩
  · intro tracks pt it hg ir hir
    simp only [generate_html_tables] at hg
    split at hg
    · exact absurd hg (by simp)
    · simp only [Option.some.injEq, Prod.mk.injEq] at hg
      obtain ⟨_, hit⟩ := hg
      subst hit
      obtain ⟨r, hrf, rfl⟩ := List.mem_map.mp hir
      have hrmem := List.mem_of_mem_filter hrf
      have hpred := of_decide_eq_true (List.mem_filter.mp hrf).2
      have himp : r.improvement.isna = false := by
        cases hi : r.improvement.isna
        · rfl
        · exact absurd hi hpred
      refine ⟨r, hrmem, rfl, rfl, ?_, ?_⟩
      · cases h1 : (r.alien.take 2).all (fun p => p.2.isna)
        · rfl
        · rw [hnan r hrmem (Or.inl h1)] at himp
          simp [PyF.isna] at himp
      · cases h1 : (r.alien.drop (r.alien.length - 2)).all (fun p => p.2.isna)
        · rfl
        · rw [hnan r hrmem (Or.inr h1)] at himp
          simp [PyF.isna] at himp
  · intro r hr
    obtain ⟨L, hL, rfl⟩ := buildImprovementMem t codes rows hb r hr
    exact ⟨L, hL, rfl⟩

/-- The worked scenario extended with a driver `Cy C` who only appears in
event 3: missing in both of the first two columns, so with no improvement
value. -/
def c9Dfs : String → Option (List Row) := fun t =>
  if t = "T1" then
    process_race_data [⟨"Ann A", "X", .str "104.5"⟩, ⟨"Bob B", "X", .str "103"⟩] 100
  else if t = "T2" then
    process_race_data [⟨"Bob B", "X", .str "102.5"⟩] 100
  else if t = "T3" then
    process_race_data [⟨"Ann A", "X", .str "101.2"⟩, ⟨"Bob B", "X", .str "107.5"⟩,
      ⟨"Cy C", "X", .str "102"⟩] 100
  else none

/-- The comparison table for `c9Dfs`: `Cy C` is retained with missing cells
in events 1 and 2. -/
def c9Table : List CRow :=
  [⟨"Ann A", [("sc1", ⟨.fin (209/2), .fin (2464/25), .fin (209/2)⟩),
              ("sc2", ⟨.nan, .nan, .nan⟩),
              ("sc3", ⟨.fin (506/5), .fin 100, .fin (506/5)⟩)]⟩,
   ⟨"Bob B", [("sc1", ⟨.fin 103, .fin 100, .fin 103⟩),
              ("sc2", ⟨.fin (205/2), .fin 100, .fin (205/2)⟩),
              ("sc3", ⟨.fin (215/2), .fin (4707/50), .nan⟩)]⟩,
   ⟨"Cy C", [("sc1", ⟨.nan, .nan, .nan⟩),
             ("sc2", ⟨.nan, .nan, .nan⟩),
             ("sc3", ⟨.fin 102, .fin (4961/50), .fin 102⟩)]⟩]

/-- The improvement rows for `c9Table`: `Cy C` gets a missing
`best_first_two` and a missing improvement. -/
def c9Improvement : List IRow :=
  [⟨"Ann A", [("sc1", .fin (209/2)), ("sc2", .nan), ("sc3", .fin (506/5))],
    .fin (209/2), .fin (506/5), .fin (33/10)⟩,
   ⟨"Bob B", [("sc1", .fin 103), ("sc2", .fin (205/2)), ("sc3", .nan)],
    .fin (205/2), .fin (205/2), .fin 0⟩,
   ⟨"Cy C", [("sc1", .nan), ("sc2", .nan), ("sc3", .fin 102)],
    .nan, .fin 102, .nan⟩]

/-- The rendered pace table for `c9Table`: `Cy C` is kept there. -/
def c9HtmlPace : List PaceOutRow :=
  [⟨"A. A", [("sc1", .fin (209/2)), ("sc2", .nan), ("sc3", .fin (506/5))]⟩,
   ⟨"B. B", [("sc1", .fin 103), ("sc2", .fin (205/2)), ("sc3", .nan)]⟩,
   ⟨"C. C", [("sc1", .nan), ("sc2", .nan), ("sc3", .fin 102)]⟩]

/-- The rendered improvement table for `c9Table`: `Cy C` is excluded. -/
def c9HtmlImprovement : List ImpOutRow :=
  [⟨"Ann A", .fin (209/2), .fin (506/5), .fin (33/10)⟩,
   ⟨"Bob B", .fin (205/2), .fin (205/2), .fin 0⟩]

/-- Witness for C9: driver `Cy C`, missing in both of the first two event
columns, has a missing improvement value, is excluded from the rendered
improvement table, and is still retained in the comparison table. -/
theorem C9_missing_improvement_excluded_witness :
    (∃ r ∈ c9Improvement, r.driver = "Cy C" ∧ r.improvement = PyF.nan) ∧
    generate_html_tables c9Table ["sc1", "sc2", "sc3"]
        (ImprovementDF.with_cols c9Improvement) ["T1", "T2", "T3"] =
      some (c9HtmlPace, c9HtmlImprovement) ∧
    (c9HtmlImprovement.all (fun ir => ir.driver ≠ "Cy C")) = true ∧
    (∃ L ∈ c9Table, L.driver = "Cy C") ∧
    ((∀ r ∈ c9Improvement,
      ((r.alien.take 2).all (fun p => p.2.isna) = true ∨
        (r.alien.drop (r.alien.length - 2)).all (fun p => p.2.isna) = true) →
      r.improvement = PyF.nan) ∧
    (∀ tracks pt it,
      generate_html_tables c9Table ["sc1", "sc2", "sc3"]
          (ImprovementDF.with_cols c9Improvement) tracks = some (pt, it) →
      ∀ ir ∈ it, ∃ r ∈ c9Improvement, ir.driver = r.driver ∧
        ir.improvement = r.improvement ∧
        (r.alien.take 2).all (fun p => p.2.isna) = false ∧
        (r.alien.drop (r.alien.length - 2)).all (fun p => p.2.isna) = false) ∧
    (∀ r ∈ c9Improvement, ∃ L ∈ c9Table, r.driver = L.driver)) :=
  ⟨by decide, by decide, by decide, by decide,
   C9_missing_improvement_excluded scenarioRaces c9Dfs c9Table ["sc1", "sc2", "sc3"]
     c9Improvement (by decide) (by decide)⟩

theorem filterEqNilMem (p : α → Bool) (l : List α) (h : l.filter p = []) :
    ∀ a ∈ l, p a = false := by
  induction l with
  | nil => simp
  | cons a t ih =>
    rw [List.filter_cons] at h
    split at h
    · simp at h
    · rename_i hna
      intro x hx
      rcases List.mem_cons.mp hx with rfl | hx
      · simpa using hna
      · exact ih h x hx

theorem filterOfAllFalse (p : α → Bool) (l : List α) (h : ∀ a ∈ l, p a = false) :
    l.filter p = [] := by
  induction l with
  | nil => rfl
  | cons a t ih =>
    rw [List.filter_cons, h a (List.mem_cons_self a t)]
    exact ih (fun x hx => h x (List.mem_cons_of_mem a hx))

/-- The pace cell of a two-event row at its first code. -/
theorem alienAtPairFst (d0 c1 c2 : String) (e1 e2 : EventCells) :
    alienAt ⟨d0, [(c1, e1), (c2, e2)]⟩ c1 = e1.alien := by
  simp [alienAt, List.lookup]

/-- The pace cell of a two-event row at its second code. -/
theorem alienAtPairSnd (d0 c1 c2 : String) (e1 e2 : EventCells) (hne : c2 ≠ c1) :
    alienAt ⟨d0, [(c1, e1), (c2, e2)]⟩ c2 = e2.alien := by
  simp [alienAt, List.lookup, beq_false_of_ne hne]

/-- Left half of one outer-merge step, filtered to one driver: when every
left row carrying the driver has no match on the right, each filtered left
row just gains a NaN-filled column. -/
theorem mergeLeftFilter (left : List CRow) (code : String) (right : List Row) (d : String)
    (hmatch : ∀ L ∈ left, L.driver = d →
      right.filter (fun R => decide (R.driver = L.driver)) = []) :
    ((left.map (fun L =>
      match right.filter (fun R => decide (R.driver = L.driver)) with
      | [] => [(⟨L.driver, L.cells ++ [(code, nanCells)]⟩ : CRow)]
      | Rs => Rs.map (fun R => ⟨L.driver, L.cells ++ [(code, rowCells R)]⟩))).flatten).filter
        (fun L => decide (L.driver = d)) =
    (left.filter (fun L => decide (L.driver = d))).map
      (fun L => ⟨L.driver, L.cells ++ [(code, nanCells)]⟩) := by
  rw [flattenFilter, List.map_map]
  refine flattenMapSingle left _ _ _ ?_
  intro L hL
  by_cases hPd : L.driver = d
  · rw [Function.comp_apply, hmatch L hL hPd]
    simp [hPd]
  · have hP : decide (L.driver = d) = false := decide_eq_false hPd
    rw [Function.comp_apply]
    cases hRs : right.filter (fun R => decide (R.driver = L.driver)) with
    | nil => simp [hP]
    | cons R Rs =>
      simp only [hP, if_false]
      rw [filterMapEq]
      rw [filterOfAllFalse _ _ (fun x _ => hP)]
      rfl

/-- Tail of the comparison pipeline on a merge result that carries exactly
one row for a driver: after the zero replacement, the all-missing drop (the
row being kept), the outlier replacement and the sort, the final table
still carries exactly that processed row for the driver. -/
theorem pipelineFilterSingle (M : List CRow) (codes2 : List String) (d : String)
    (cells : List (String × EventCells))
    (hM : M.filter (fun L => decide (L.driver = d)) = [⟨d, cells⟩])
    (hkeep : keepRow codes2 (cleanRow ⟨d, cells⟩) = true) :
    (sortByKey leDriver (((M.map cleanRow).filter (keepRow codes2)).map outRow)).filter
      (fun L => decide (L.driver = d)) = [outRow (cleanRow ⟨d, cells⟩)] := by
  have h3 : (M.map cleanRow).filter (fun L => decide (L.driver = d))
      = [cleanRow ⟨d, cells⟩] := by
    rw [filterMapEq]
    change List.map cleanRow (M.filter (fun L => decide (L.driver = d))) = _
    rw [hM]
    rfl
  have h4 : ((M.map cleanRow).filter (keepRow codes2)).filter
      (fun L => decide (L.driver = d)) = [cleanRow ⟨d, cells⟩] := by
    rw [List.filter_comm, h3, List.filter_cons, hkeep]
    rfl
  have h5 : ((((M.map cleanRow).filter (keepRow codes2)).map outRow)).filter
      (fun L => decide (L.driver = d)) = [outRow (cleanRow ⟨d, cells⟩)] := by
    rw [filterMapEq]
    change List.map outRow (((M.map cleanRow).filter (keepRow codes2)).filter
      (fun L => decide (L.driver = d))) = _
    rw [h4]
    rfl
  have hperm := (sortByKeyPerm leDriver
    (((M.map cleanRow).filter (keepRow codes2)).map outRow)).filter
      (fun L => decide (L.driver = d))
  rw [h5] at hperm
  exact List.perm_singleton.mp hperm

/-- C8: the outer-join merge is commutative with respect to row presence —
for a driver absent from event A (joined as `cA`) and present exactly once
in event B (joined as `cB`) with a valid non-outlier reference pace `q`,
both merge orders produce a final comparison table containing exactly one
row for that driver, with a missing value in A's pace column and the value
`q` in B's pace column. -/
theorem C8_outer_join_commutative (cA tA cB tB : String) (dfs : String → Option (List Row))
    (dfA dfB : List Row) (d : String) (rowB : Row) (q : ℚ)
    (hA : dfs tA = some dfA) (hB : dfs tB = some dfB) (hcc : cA ≠ cB)
    (hdA : dfA.filter (fun R => decide (R.driver = d)) = [])
    (hdB : dfB.filter (fun R => decide (R.driver = d)) = [rowB])
    (halien : rowB.laptime_pct_alien = PyF.fin q) (hq0 : q ≠ 0) (hq107 : q ≤ 107) :
    (∃ t1, (process_races_into_comparison_df [(cA, tA), (cB, tB)] dfs).1 = some t1 ∧
      (t1.filter (fun L => decide (L.driver = d))).length = 1 ∧
      ∀ L ∈ t1, L.driver = d → alienAt L cA = PyF.nan ∧ alienAt L cB = PyF.fin q) ∧
    (∃ t2, (process_races_into_comparison_df [(cB, tB), (cA, tA)] dfs).1 = some t2 ∧
      (t2.filter (fun L => decide (L.driver = d))).length = 1 ∧
      ∀ L ∈ t2, L.driver = d → alienAt L cA = PyF.nan ∧ alienAt L cB = PyF.fin q) := by
  have hrowBd : rowB.driver = d := by
    have hmem : rowB ∈ dfB.filter (fun R => decide (R.driver = d)) := by
      rw [hdB]; exact List.mem_cons_self rowB []
    exact of_decide_eq_true (List.mem_filter.mp hmem).2
  have hfinq0 : rowB.laptime_pct_alien ≠ PyF.fin 0 := by
    rw [halien]
    intro hc
    exact hq0 (by injection hc)
  constructor
  · -- merge order A then B: the driver enters as an unmatched right row.
    have hseedA : ∀ L ∈ dfA.map (fun r => (⟨r.driver, [(cA, rowCells r)]⟩ : CRow)),
        L.driver ≠ d := by
      intro L hL
      obtain ⟨r, hr, rfl⟩ := List.mem_map.mp hL
      simpa using filterEqNilMem _ _ hdA r hr
    have hM1 : (mergeOuter [cA] (dfA.map fun r => ⟨r.driver, [(cA, rowCells r)]⟩) cB
        dfB).filter (fun L => decide (L.driver = d)) =
        [⟨d, [(cA, nanCells), (cB, rowCells rowB)]⟩] := by
      unfold mergeOuter
      rw [List.filter_append]
      rw [mergeLeftFilter _ _ _ d (fun L hL hLd => absurd hLd (hseedA L hL))]
      rw [filterOfAllFalse _ _ (fun L hL => decide_eq_false (hseedA L hL))]
      simp only [List.map_nil, List.nil_append]
      rw [filterMapEq]
      change List.map _ ((dfB.filter _).filter (fun R => decide (R.driver = d))) = _
      rw [List.filter_comm, hdB, List.filter_cons]
      have hU : (dfA.map fun r => (⟨r.driver, [(cA, rowCells r)]⟩ : CRow)).all
          (fun L => decide (¬ L.driver = rowB.driver)) = true := by
        rw [List.all_eq_true]
        intro L hL
        exact decide_eq_true (hrowBd ▸ hseedA L hL)
      rw [hU]
      simp [hrowBd]
    have hkeep1 : keepRow [cA, cB]
        (cleanRow ⟨d, [(cA, nanCells), (cB, rowCells rowB)]⟩) = true := by
      apply decide_eq_true
      intro hall
      rw [List.all_eq_true] at hall
      have hcB := hall cB (by simp)
      rw [show cleanRow ⟨d, [(cA, nanCells), (cB, rowCells rowB)]⟩ =
          ⟨d, [(cA, cleanCell nanCells), (cB, cleanCell (rowCells rowB))]⟩ from rfl,
        alienAtPairSnd _ _ _ _ _ (Ne.symm hcc)] at hcB
      rw [show (cleanCell (rowCells rowB)).alien = repl0 rowB.laptime_pct_alien from rfl,
        repl0EqSelf _ hfinq0, halien] at hcB
      simp [PyF.isna] at hcB
    have hp1 : (process_races_into_comparison_df [(cA, tA), (cB, tB)] dfs).1 =
        some (sortByKey leDriver ((((mergeOuter [cA]
          (dfA.map fun r => ⟨r.driver, [(cA, rowCells r)]⟩) cB dfB).map
            cleanRow).filter (keepRow [cA, cB])).map outRow)) := by
      simp only [process_races_into_comparison_df, hA, hB, List.foldl_cons, List.foldl_nil,
        List.singleton_append]
    have hfilter := pipelineFilterSingle
      (mergeOuter [cA] (dfA.map fun r => ⟨r.driver, [(cA, rowCells r)]⟩) cB dfB)
      [cA, cB] d [(cA, nanCells), (cB, rowCells rowB)] hM1 hkeep1
    refine ⟨_, hp1, ?_, ?_⟩
    · rw [hfilter]
      rfl
    · intro L hL hLd
      have hLP : L ∈ (sortByKey leDriver ((((mergeOuter [cA]
          (dfA.map fun r => ⟨r.driver, [(cA, rowCells r)]⟩) cB dfB).map
            cleanRow).filter (keepRow [cA, cB])).map outRow)).filter
          (fun L => decide (L.driver = d)) :=
        List.mem_filter.mpr ⟨hL, decide_eq_true hLd⟩
      rw [hfilter] at hLP
      have hLeq : L = outRow (cleanRow ⟨d, [(cA, nanCells), (cB, rowCells rowB)]⟩) := by
        simpa using hLP
      subst hLeq
      rw [show outRow (cleanRow ⟨d, [(cA, nanCells), (cB, rowCells rowB)]⟩) =
          ⟨d, [(cA, outCell (cleanCell nanCells)),
               (cB, outCell (cleanCell (rowCells rowB)))]⟩ from rfl]
      constructor
      · rw [alienAtPairFst]
        rfl
      · rw [alienAtPairSnd _ _ _ _ _ (Ne.symm hcc)]
        rw [show (outCell (cleanCell (rowCells rowB))).alien =
            outlier107 (repl0 rowB.laptime_pct_alien) from rfl]
        rw [repl0EqSelf _ hfinq0, halien]
        simp [outlier107, hq107]
  · -- merge order B then A: the driver enters with the seed table.
    have hseedB : (dfB.map (fun r => (⟨r.driver, [(cB, rowCells r)]⟩ : CRow))).filter
        (fun L => decide (L.driver = d)) = [⟨d, [(cB, rowCells rowB)]⟩] := by
      rw [filterMapEq]
      change List.map _ (dfB.filter (fun R => decide (R.driver = d))) = _
      rw [hdB]
      simp [hrowBd]
    have hM2 : (mergeOuter [cB] (dfB.map fun r => ⟨r.driver, [(cB, rowCells r)]⟩) cA
        dfA).filter (fun L => decide (L.driver = d)) =
        [⟨d, [(cB, rowCells rowB), (cA, nanCells)]⟩] := by
      unfold mergeOuter
      rw [List.filter_append]
      rw [mergeLeftFilter _ _ _ d ?hm2]
      case hm2 =>
        intro L hL hLd
        simp only [hLd]
        exact hdA
      rw [hseedB]
      rw [filterMapEq]
      change _ ++ List.map _ ((dfA.filter _).filter (fun R => decide (R.driver = d))) = _
      have hsub : List.Sublist
          ((dfA.filter (fun R => (dfB.map fun r =>
            (⟨r.driver, [(cB, rowCells r)]⟩ : CRow)).all
              (fun L => decide (¬ L.driver = R.driver)))).filter
            (fun R => decide (R.driver = d)))
          (dfA.filter (fun R => decide (R.driver = d))) :=
        (List.filter_sublist dfA).filter _
      rw [hdA] at hsub
      rw [List.sublist_nil.mp hsub]
      simp
    have hkeep2 : keepRow [cB, cA]
        (cleanRow ⟨d, [(cB, rowCells rowB), (cA, nanCells)]⟩) = true := by
      apply decide_eq_true
      intro hall
      rw [List.all_eq_true] at hall
      have hcB := hall cB (by simp)
      rw [show cleanRow ⟨d, [(cB, rowCells rowB), (cA, nanCells)]⟩ =
          ⟨d, [(cB, cleanCell (rowCells rowB)), (cA, cleanCell nanCells)]⟩ from rfl,
        alienAtPairFst] at hcB
      rw [show (cleanCell (rowCells rowB)).alien = repl0 rowB.laptime_pct_alien from rfl,
        repl0EqSelf _ hfinq0, halien] at hcB
      simp [PyF.isna] at hcB
    have hp2 : (process_races_into_comparison_df [(cB, tB), (cA, tA)] dfs).1 =
        some (sortByKey leDriver ((((mergeOuter [cB]
          (dfB.map fun r => ⟨r.driver, [(cB, rowCells r)]⟩) cA dfA).map
            cleanRow).filter (keepRow [cB, cA])).map outRow)) := by
      simp only [process_races_into_comparison_df, hA, hB, List.foldl_cons, List.foldl_nil,
        List.singleton_append]
    have hfilter := pipelineFilterSingle
      (mergeOuter [cB] (dfB.map fun r => ⟨r.driver, [(cB, rowCells r)]⟩) cA dfA)
      [cB, cA] d [(cB, rowCells rowB), (cA, nanCells)] hM2 hkeep2
    refine ⟨_, hp2, ?_, ?_⟩
    · rw [hfilter]
      rfl
    · intro L hL hLd
      have hLP : L ∈ (sortByKey leDriver ((((mergeOuter [cB]
          (dfB.map fun r => ⟨r.driver, [(cB, rowCells r)]⟩) cA dfA).map
            cleanRow).filter (keepRow [cB, cA])).map outRow)).filter
          (fun L => decide (L.driver = d)) :=
        List.mem_filter.mpr ⟨hL, decide_eq_true hLd⟩
      rw [hfilter] at hLP
      have hLeq : L = outRow (cleanRow ⟨d, [(cB, rowCells rowB), (cA, nanCells)]⟩) := by
        simpa using hLP
      subst hLeq
      rw [show outRow (cleanRow ⟨d, [(cB, rowCells rowB), (cA, nanCells)]⟩) =
          ⟨d, [(cB, outCell (cleanCell (rowCells rowB))),
               (cA, outCell (cleanCell nanCells))]⟩ from rfl]
      constructor
      · rw [alienAtPairSnd _ _ _ _ _ hcc]
        rfl
      · rw [alienAtPairFst]
        rw [show (outCell (cleanCell (rowCells rowB))).alien =
            outlier107 (repl0 rowB.laptime_pct_alien) from rfl]
        rw [repl0EqSelf _ hfinq0, halien]
        simp [outlier107, hq107]

/-- Two events for the C8 witness: driver `G H` runs only the second. -/
def c8Dfs : String → Option (List Row) := fun t =>
  if t = "T1" then some [⟨"E F", 103, .fin 100, .fin 103⟩]
  else if t = "T2" then some [⟨"G H", 104, .fin 99, .fin 104⟩]
  else none

/-- Witness for C8: driver `G H`, absent from event `sc1` and present once
in event `sc2` with reference pace 104, gets exactly one final row — with a
missing `sc1` cell and the value 104 in the `sc2` cell — under both merge
orders. -/
theorem C8_outer_join_commutative_witness :
    (∃ t1, (process_races_into_comparison_df [("sc1", "T1"), ("sc2", "T2")] c8Dfs).1 =
        some t1 ∧
      (t1.filter (fun L => decide (L.driver = "G H"))).length = 1 ∧
      ∀ L ∈ t1, L.driver = "G H" →
        alienAt L "sc1" = PyF.nan ∧ alienAt L "sc2" = PyF.fin 104) ∧
    (∃ t2, (process_races_into_comparison_df [("sc2", "T2"), ("sc1", "T1")] c8Dfs).1 =
        some t2 ∧
      (t2.filter (fun L => decide (L.driver = "G H"))).length = 1 ∧
      ∀ L ∈ t2, L.driver = "G H" →
        alienAt L "sc1" = PyF.nan ∧ alienAt L "sc2" = PyF.fin 104) :=
  C8_outer_join_commutative "sc1" "T1" "sc2" "T2" c8Dfs
    [⟨"E F", 103, .fin 100, .fin 103⟩] [⟨"G H", 104, .fin 99, .fin 104⟩]
    "G H" ⟨"G H", 104, .fin 99, .fin 104⟩ 104
    (by decide) (by decide) (by decide) (by decide) (by decide) (by decide) (by decide)
    (by decide)
